import Mathlib

/-!
# go-logger: a leveled, colorized logger

A shallow embedding of `logger.go` (package `logger`) and the properties of its
level gate, its record formatter, its caller locator and its hand-off pipeline.

Modelling conventions.

* Go `string` and `[]byte` values are modelled by the Lean `String` of their text.
* Go `int` is modelled by `Int`; no arithmetic is performed on it by this package.
* `chan logMessanger` is modelled by the list of values sent and not yet received,
  oldest first; `io.Writer` by the list of strings written to it so far.
* The clock and the stack are inputs: `time.Now().Format` and the result of
  `runtime.Caller(2)` are supplied by an `Env`.
* `fmt.Sprintf` is modelled for the verbs `%s`, `%d`, `%v` (no flags, no width),
  which are the only ones occurring in the package's format strings.
-/

namespace logger

/-! ## Constants (logger.go, lines 16-38) -/

/-- Black or gray with a light color. -/
def FormatPrefix : String := "\x1b[1;30m"
/-- Blue. -/
def FormatFatal : String := "\x1b[1;34m"
/-- Red. -/
def FormatError : String := "\x1b[2;31m"
/-- Yellow. -/
def FormatWarning : String := "\x1b[1;33m"
/-- Green. -/
def FormatNotice : String := "\x1b[2;32m"
/-- Standard white. -/
def FormatInfo : String := ""
/-- Cyan. -/
def FormatDebug : String := "\x1b[1;36m"
/-- Stop formatting, turn it off. -/
def FormatOff : String := "\x1b[0m"
/-- The layout handed to `time.Format`. -/
def FormatTimeDisplay : String := "2006-01-02 15:04:05"
/-- The format replacement for the start. -/
def FormatStringDisplay : String := "%s[%s %s:%d] %s%s%s%s\n"

def LoglevelOff : Int := 0
def LoglevelFatal : Int := 1
def LoglevelError : Int := 2
def LoglevelWarning : Int := 3
def LoglevelInfo : Int := 4
def LoglevelNotice : Int := 5
def LoglevelDebug : Int := 6

/-! ## Dynamic values (`interface{}`) and the fragment of `fmt` used -/

/-- The ten built-in integer types named by the type switch of `GetFormattedMessage`. -/
inductive IntKind where
  | int | int8 | int16 | int32 | int64 | uint | uint8 | uint16 | uint32 | uint64
  deriving DecidableEq, Repr

/-- The name `reflect.TypeOf` reports for a built-in integer type. -/
def IntKind.name : IntKind → String
  | .int => "int" | .int8 => "int8" | .int16 => "int16" | .int32 => "int32"
  | .int64 => "int64" | .uint => "uint" | .uint8 => "uint8" | .uint16 => "uint16"
  | .uint32 => "uint32" | .uint64 => "uint64"

/-- A value held in an `interface{}`, tagged by its dynamic type.

* `float32 g`, `float64 g`: a floating-point number, given with the text `g` that the
  general verb `%v` prints for it (floating-point formatting itself is outside the model);
* `integer k v`: the integer `v` of built-in type `k`;
* `bytes b`: a `[]byte` holding the bytes of the text `b`;
* `string s`: a `string`;
* `other t r`: a value of any other dynamic type (a struct, a pointer, an error, a
  user-defined type whose underlying type is `int` or `string`, ...): `t` is the name
  of its type and `r verb` the text `fmt` prints for it under `verb`;
* `nil`: the nil interface value. -/
inductive Value where
  | float32 (general : String)
  | float64 (general : String)
  | integer (kind : IntKind) (v : Int)
  | bytes (b : String)
  | string (s : String)
  | other (typeName : String) (render : Char → String)
  | nil

/-- The text of `reflect.TypeOf(s).String()`. -/
def Value.typeName : Value → String
  | .float32 _ => "float32"
  | .float64 _ => "float64"
  | .integer k _ => k.name
  | .bytes _ => "[]uint8"
  | .string _ => "string"
  | .other t _ => t
  | .nil => "<nil>"

/-- The value `reflect.TypeOf(s)`: nil for the nil interface, otherwise a `reflect.Type`,
which `fmt` prints through its `String` method. -/
def reflectTypeOf : Value → Value
  | .nil => .nil
  | s => .other "*reflect.rtype" (fun _ => s.typeName)

/-- The decimal numerals of the bytes of a `[]byte`, as `%v` and `%d` print them. -/
def byteNumerals (b : String) : String :=
  "[" ++ " ".intercalate (b.toUTF8.toList.map (fun x => toString x.toNat)) ++ "]"

/-- The text `fmt` prints for one operand under the verbs `v`, `s` and `d`. A verb that
does not apply to the operand yields the marker `%!verb(type=value)`. -/
def formatVerb (verb : Char) (a : Value) : String :=
  match a with
  | .nil => if verb = 'v' then "<nil>" else "%!" ++ verb.toString ++ "(<nil>)"
  | .float32 g =>
    if verb = 'v' then g else "%!" ++ verb.toString ++ "(float32=" ++ g ++ ")"
  | .float64 g =>
    if verb = 'v' then g else "%!" ++ verb.toString ++ "(float64=" ++ g ++ ")"
  | .integer k v =>
    if verb = 'v' ∨ verb = 'd' then toString v
    else "%!" ++ verb.toString ++ "(" ++ k.name ++ "=" ++ toString v ++ ")"
  | .bytes b =>
    if verb = 's' then b
    else if verb = 'v' ∨ verb = 'd' then byteNumerals b
    else "%!" ++ verb.toString ++ "([]uint8=" ++ byteNumerals b ++ ")"
  | .string s =>
    if verb = 'v' ∨ verb = 's' then s
    else "%!" ++ verb.toString ++ "(string=" ++ s ++ ")"
  | .other _ r => r verb

/-- One surplus operand, as listed inside `%!(EXTRA ...)`. -/
def extraOperand : Value → String
  | .nil => "<nil>"
  | a => a.typeName ++ "=" ++ formatVerb 'v' a

/-- The trailer `fmt` appends when operands are left over. -/
def extraOperands (a : List Value) : String :=
  if a.isEmpty then "" else "%!(EXTRA " ++ ", ".intercalate (a.map extraOperand) ++ ")"

/-- The format loop of `fmt` (`doPrintf`): literal characters are copied, `%%` prints a
percent sign, `%verb` consumes the next operand. -/
def doPrintf : List Char → List Value → String
  | [], a => extraOperands a
  | c :: rest, a =>
    if c = '%' then
      match rest, a with
      | [], a => "%!(NOVERB)" ++ extraOperands a
      | verb :: rest2, [] =>
        if verb = '%' then "%" ++ doPrintf rest2 []
        else "%!" ++ verb.toString ++ "(MISSING)" ++ doPrintf rest2 []
      | verb :: rest2, x :: a2 =>
        if verb = '%' then "%" ++ doPrintf rest2 (x :: a2)
        else formatVerb verb x ++ doPrintf rest2 a2
    else c.toString ++ doPrintf rest a

/-- The function `fmt.Sprintf`. -/
def Sprintf (format : String) (a : List Value) : String :=
  doPrintf format.data a

/-- The function `strings.Join`. -/
def Join (elems : List String) (sep : String) : String :=
  match elems with
  | [] => ""
  | [e] => e
  | e :: rest => rest.foldl (fun b s => b ++ sep ++ s) e

/-! ## Caller locator (`path/filepath.Split`, `getFileAndLine`) -/

/-- The predicate `os.IsPathSeparator` on a Unix build: `PathSeparator == c`. -/
def IsPathSeparator (c : Char) : Bool := c = '/'

/-- The scan of `filepath.Split`: started at `i + 1 = len(path)`, it steps `i` down while
`i >= 0` and `path[i]` is not a separator, and returns the final `i + 1`
(the volume name is empty on a Unix build). -/
def splitIndex (path : List Char) : Nat → Nat
  | 0 => 0
  | i + 1 => if IsPathSeparator (path.getD i '/') then i + 1 else splitIndex path i

/-- The function `filepath.Split`: `path[:i+1], path[i+1:]`. -/
def filepathSplit (path : String) : String × String :=
  let j := splitIndex path.data path.data.length
  (String.mk (path.data.take j), String.mk (path.data.drop j))

/-- The four results of `runtime.Caller`. -/
structure Caller where
  pc : Nat
  file : String
  line : Int
  ok : Bool

/-- What a logging call reads from its surroundings: the clock, as the function
`time.Now().Format`, and the stack, as the result of `runtime.Caller(2)`. -/
structure Env where
  now : String → String
  caller : Caller

/-! ## Records and the formatter -/

/-- LogMessage is a struct that will hold all of the information on a log message. -/
structure LogMessage where
  fileName : String
  level : Int
  message : List Value
  line : Int
  time : String
  format : String

/-- The body of the type switch of `GetFormattedMessage`: the display string of one
argument. -/
def displayString (s : Value) : String :=
  match s with
  | .float32 _ => Sprintf "%v" [s]
  | .float64 _ => Sprintf "%v" [s]
  | .integer _ _ => Sprintf "%v" [s]
  | .bytes _ => Sprintf "%s" [s]
  | .string str => str
  | .other _ _ => Sprintf "(%s) %v" [reflectTypeOf s, s]
  | .nil => Sprintf "(%s) %v" [reflectTypeOf s, s]

/-- The loop of `GetFormattedMessage`: `messages = append(messages, message)` for each
argument in turn. -/
def LogMessage.messages (m : LogMessage) : List String :=
  m.message.foldl (fun messages s => messages ++ [displayString s]) []

/-- The local `messageString` of `GetFormattedMessage`. -/
def LogMessage.messageString (m : LogMessage) : String :=
  Join m.messages " "

/-- GetFormattedMessage allows LogMessage to satisfy the interface to the channel. -/
def LogMessage.GetFormattedMessage (m : LogMessage) : String :=
  Sprintf FormatStringDisplay
    [.string FormatPrefix, .string m.time, .string m.fileName, .integer .int m.line,
     .string FormatOff, .string m.format, .string m.messageString, .string FormatOff]

/-! ## The logger -/

/-- Logger is the type struct. `localWriter` lists the strings written to the sink so
far; `messageChan` lists the records sent and not yet received. -/
structure Logger where
  localWriter : List String
  logLevel : Int
  messageChan : List LogMessage

/-- SetLogLevel will change the current log level of the struct. -/
def Logger.SetLogLevel (l : Logger) (newLevel : Int) : Logger :=
  { l with logLevel := newLevel }

/-- GetLogLevel will return the current log level of the struct. -/
def Logger.GetLogLevel (l : Logger) : Int :=
  l.logLevel

/-- The function getFileAndLine will grab the file name and line number of the calling
function. The `success` result is tested and nothing is done with it. -/
def Logger.getFileAndLine (_l : Logger) (caller : Caller) : String × Int :=
  let filePath := caller.file
  let line := caller.line
  let success := caller.ok
  let _unused := if !success then () else ()
  let fileName := (filepathSplit filePath).2
  (fileName, line)

/-- The send statement `l.messageChan <- writeMessage`. -/
def Logger.send (l : Logger) (writeMessage : LogMessage) : Logger :=
  { l with messageChan := l.messageChan ++ [writeMessage] }

/-- Fatal will format messages and write them as needed in Fatal format. -/
def Logger.Fatal (l : Logger) (env : Env) (message : List Value) : Logger :=
  if l.logLevel < LoglevelFatal then l
  else
    let logTime := env.now FormatTimeDisplay
    let (fileName, line) := l.getFileAndLine env.caller
    l.send ⟨fileName, LoglevelFatal, message, line, logTime, FormatFatal⟩

/-- Error will format messages and write them as needed in Error format. -/
def Logger.Error (l : Logger) (env : Env) (message : List Value) : Logger :=
  if l.logLevel < LoglevelError then l
  else
    let logTime := env.now FormatTimeDisplay
    let (fileName, line) := l.getFileAndLine env.caller
    l.send ⟨fileName, LoglevelFatal, message, line, logTime, FormatError⟩

/-- Warning will format messages and write them as needed in Warning format. -/
def Logger.Warning (l : Logger) (env : Env) (message : List Value) : Logger :=
  if l.logLevel < LoglevelWarning then l
  else
    let logTime := env.now FormatTimeDisplay
    let (fileName, line) := l.getFileAndLine env.caller
    l.send ⟨fileName, LoglevelWarning, message, line, logTime, FormatWarning⟩

/-- Info will format messages and write them as needed in Info format. -/
def Logger.Info (l : Logger) (env : Env) (message : List Value) : Logger :=
  if l.logLevel < LoglevelInfo then l
  else
    let logTime := env.now FormatTimeDisplay
    let (fileName, line) := l.getFileAndLine env.caller
    l.send ⟨fileName, LoglevelInfo, message, line, logTime, FormatInfo⟩

/-- Notice will format messages and write them as needed in Notice format. -/
def Logger.Notice (l : Logger) (env : Env) (message : List Value) : Logger :=
  if l.logLevel < LoglevelNotice then l
  else
    let logTime := env.now FormatTimeDisplay
    let (fileName, line) := l.getFileAndLine env.caller
    l.send ⟨fileName, LoglevelNotice, message, line, logTime, FormatNotice⟩

/-- Debug will format messages and write them as needed in Debug format. -/
def Logger.Debug (l : Logger) (env : Env) (message : List Value) : Logger :=
  if l.logLevel < LoglevelDebug then l
  else
    let logTime := env.now FormatTimeDisplay
    let (fileName, line) := l.getFileAndLine env.caller
    l.send ⟨fileName, LoglevelDebug, message, line, logTime, FormatDebug⟩

/-- The function `io.WriteString` on a sink that accepts every write. -/
def WriteString (w : List String) (s : String) : List String :=
  w ++ [s]

/-- The function startListening will actually start recieving the channel: every record
on the channel is received in send order, formatted and written. -/
def Logger.startListening (l : Logger) : Logger :=
  { l with
    localWriter :=
      l.messageChan.foldl (fun w n => WriteString w n.GetFormattedMessage) l.localWriter
    messageChan := [] }

/-- NewLogger will return a new version of the Logger. Opening the destination is left
to the caller, who hands over the writer; the consumer started by `go` runs as the
`startListening` steps of a schedule. -/
def NewLogger (logWriter : List String) : Logger :=
  { localWriter := logWriter, logLevel := LoglevelDebug, messageChan := [] }

/-! ## Quantifying over the six entry points -/

/-- The six leveled entry points. -/
inductive EntryPoint where
  | Fatal | Error | Warning | Info | Notice | Debug
  deriving DecidableEq, Repr

/-- A call of the entry point `X` on the logger `l`. -/
def Logger.call (l : Logger) (X : EntryPoint) (env : Env) (message : List Value) : Logger :=
  match X with
  | .Fatal => l.Fatal env message
  | .Error => l.Error env message
  | .Warning => l.Warning env message
  | .Info => l.Info env message
  | .Notice => l.Notice env message
  | .Debug => l.Debug env message

/-- The ordinal severity of an entry point, as the level table of the specification
gives it: Fatal 1, Error 2, Warning 3, Info 4, Notice 5, Debug 6. -/
def EntryPoint.ordinal : EntryPoint → Int
  | .Fatal => 1 | .Error => 2 | .Warning => 3 | .Info => 4 | .Notice => 5 | .Debug => 6

/-- The color sequence of an entry point, as the output line format of the
specification gives it. -/
def EntryPoint.color : EntryPoint → String
  | .Fatal => "\x1b[1;34m"
  | .Error => "\x1b[2;31m"
  | .Warning => "\x1b[1;33m"
  | .Info => ""
  | .Notice => "\x1b[2;32m"
  | .Debug => "\x1b[1;36m"

/-- The output line of the specification for a timestamp, a file name, a line number,
a color and a message body. -/
def specLine (t f : String) (n : Int) (color body : String) : String :=
  "\x1b[1;30m" ++ "[" ++ t ++ " " ++ f ++ ":" ++ toString n ++ "] " ++ "\x1b[0m" ++ color
    ++ body ++ "\x1b[0m" ++ "\n"

/-- One step of a single-producer schedule: the producer makes a logging call, or the
consumer receives what is on the channel and writes it. -/
inductive Step where
  | call (X : EntryPoint) (env : Env) (message : List Value)
  | listen

/-- Running a schedule from a logger. -/
def Logger.run (l : Logger) : List Step → Logger
  | [] => l
  | .call X env message :: rest => (l.call X env message).run rest
  | .listen :: rest => l.startListening.run rest

/-- The argument texts that reach the output unchanged hold no newline: the text of a
string, of a byte sequence and of a floating-point number, and the type name and
default representation of a value of any other type. -/
def Value.newlineFree : Value → Prop
  | .float32 g => '\n' ∉ g.data
  | .float64 g => '\n' ∉ g.data
  | .integer _ _ => True
  | .bytes b => '\n' ∉ b.data
  | .string s => '\n' ∉ s.data
  | .other t r => '\n' ∉ t.data ∧ '\n' ∉ (r 'v').data
  | .nil => True

/-- The lines the specification expects in the sink for a schedule run at threshold
`T`: one line per admitted call, in call order. -/
def expectedLines (T : Int) : List Step → List String
  | [] => []
  | .call X env message :: rest =>
    if X.ordinal ≤ T then
      specLine (env.now "2006-01-02 15:04:05") (filepathSplit env.caller.file).2
        env.caller.line X.color (" ".intercalate (message.map displayString))
        :: expectedLines T rest
    else expectedLines T rest
  | .listen :: rest => expectedLines T rest

/-- The value `uintptr(v)`. The type `uintptr` is a built-in unsigned integer type that
the type switch of `GetFormattedMessage` does not list, so it is a value of another
dynamic type: its type name is `uintptr`, and `fmt` prints it in decimal under `%v` and
`%d` and as the marker `%!verb(uintptr=v)` under a verb that does not apply. -/
def uintptrValue (v : Nat) : Value :=
  .other "uintptr" (fun verb =>
    if verb = 'v' ∨ verb = 'd' then toString v
    else "%!" ++ verb.toString ++ "(uintptr=" ++ toString v ++ ")")

/-! ## The formatter: the format string and the join -/

theorem GetFormattedMessage_eq_specLine (m : LogMessage) :
    m.GetFormattedMessage = specLine m.time m.fileName m.line m.format m.messageString := by
  apply String.ext
  simp [LogMessage.GetFormattedMessage, Sprintf, FormatStringDisplay, doPrintf, formatVerb,
    specLine, extraOperands, FormatPrefix, FormatOff, Char.toString, String.singleton]

theorem foldl_append_display (args : List Value) (acc : List String) :
    args.foldl (fun messages s => messages ++ [displayString s]) acc
      = acc ++ args.map displayString := by
  induction args generalizing acc with
  | nil => simp
  | cons s rest ih => simp [ih]

theorem messages_eq_map (m : LogMessage) : m.messages = m.message.map displayString := by
  simp [LogMessage.messages, foldl_append_display]

theorem foldl_eq_intercalate_go (sep : String) (rest : List String) (e : String) :
    rest.foldl (fun b s => b ++ sep ++ s) e = String.intercalate.go e sep rest := by
  induction rest generalizing e with
  | nil => simp [String.intercalate.go]
  | cons s rest ih => simp [String.intercalate.go, ih]

theorem Join_eq_intercalate (elems : List String) (sep : String) :
    Join elems sep = sep.intercalate elems := by
  cases elems with
  | nil => simp [Join, String.intercalate]
  | cons e rest =>
    cases rest with
    | nil => simp [Join, String.intercalate, String.intercalate.go]
    | cons s rest =>
      simp [Join, String.intercalate, foldl_eq_intercalate_go, String.intercalate.go]

theorem messageString_eq (m : LogMessage) :
    m.messageString = " ".intercalate (m.message.map displayString) := by
  simp [LogMessage.messageString, messages_eq_map, Join_eq_intercalate]

theorem displayString_string (s : String) : displayString (.string s) = s := rfl

theorem displayString_bytes (b : String) : displayString (.bytes b) = b := by
  apply String.ext
  simp [displayString, Sprintf, doPrintf, formatVerb, extraOperands]

theorem displayString_integer (k : IntKind) (v : Int) :
    displayString (.integer k v) = toString v := by
  apply String.ext
  simp [displayString, Sprintf, doPrintf, formatVerb, extraOperands]

theorem displayString_float32 (g : String) : displayString (.float32 g) = g := by
  apply String.ext
  simp [displayString, Sprintf, doPrintf, formatVerb, extraOperands]

theorem displayString_float64 (g : String) : displayString (.float64 g) = g := by
  apply String.ext
  simp [displayString, Sprintf, doPrintf, formatVerb, extraOperands]

theorem displayString_other (t : String) (r : Char → String) :
    displayString (.other t r) = "(" ++ t ++ ") " ++ r 'v' := by
  apply String.ext
  simp [displayString, Sprintf, doPrintf, formatVerb, extraOperands, reflectTypeOf,
    Value.typeName, Char.toString, String.singleton]

theorem displayString_nil : displayString .nil = "(" ++ "%!s(<nil>)" ++ ") " ++ "<nil>" := by
  decide

/-- The record an entry point builds, read off the six bodies. -/
theorem call_eq (l : Logger) (X : EntryPoint) (env : Env) (message : List Value) :
    l.call X env message =
      if l.logLevel < X.ordinal then l
      else { l with messageChan := l.messageChan ++
        [⟨(filepathSplit env.caller.file).2, if X = .Error then 1 else X.ordinal, message,
          env.caller.line, env.now FormatTimeDisplay, X.color⟩] } := by
  cases X <;>
    simp [Logger.call, Logger.Fatal, Logger.Error, Logger.Warning, Logger.Info, Logger.Notice,
      Logger.Debug, Logger.send, Logger.getFileAndLine, EntryPoint.ordinal, EntryPoint.color,
      LoglevelFatal, LoglevelError, LoglevelWarning, LoglevelInfo, LoglevelNotice,
      LoglevelDebug, FormatFatal, FormatError, FormatWarning, FormatInfo, FormatNotice,
      FormatDebug]

/-- Claim C1 (level gate). For every integer threshold held by the logger and each of
the six entry points, a call appends exactly one record to the queue, leaving threshold
and sink as they were, iff the threshold is at least the entry point's ordinal level;
the call returns the logger unchanged iff it is not. At threshold Off (0) every entry
point leaves the logger unchanged, and at threshold Debug (6) every entry point sends
one record. -/
theorem level_gate (l : Logger) (X : EntryPoint) (env : Env) (message : List Value) :
    ((∃ r, l.call X env message = { l with messageChan := l.messageChan ++ [r] })
        ↔ l.logLevel ≥ X.ordinal)
    ∧ (l.call X env message = l ↔ ¬ l.logLevel ≥ X.ordinal)
    ∧ ({ l with logLevel := LoglevelOff }).call X env message
        = { l with logLevel := LoglevelOff }
    ∧ (∃ r, ({ l with logLevel := LoglevelDebug }).call X env message
        = { l with logLevel := LoglevelDebug, messageChan := l.messageChan ++ [r] }) := by
  refine ⟨?_, ?_, ?_, ?_⟩
  · rw [call_eq]
    by_cases h : l.logLevel < X.ordinal
    · simp only [h, if_true]
      constructor
      · rintro ⟨r, hr⟩
        have := congrArg Logger.messageChan hr
        simp at this
      · intro h2; omega
    · simp only [h, if_false]
      constructor
      · intro _; omega
      · intro _; exact ⟨_, rfl⟩
  · rw [call_eq]
    by_cases h : l.logLevel < X.ordinal
    · simp only [h, if_true]
      constructor
      · intro _; omega
      · intro _; trivial
    · simp only [h, if_false]
      constructor
      · intro hr
        have := congrArg Logger.messageChan hr
        simp at this
      · intro h2; omega
  · rw [call_eq]
    have : LoglevelOff < X.ordinal := by cases X <;> decide
    simp [this]
  · rw [call_eq]
    have : ¬ LoglevelDebug < X.ordinal := by cases X <;> decide
    simp only [this, if_false]
    exact ⟨_, rfl⟩

/-- Claim C2 (output line format). For an admitted call through the entry point `X`
with captured timestamp `t`, caller file `f` and line `n`, the record sent renders as
`ESC[1;30m ++ "[" ++ t ++ " " ++ f ++ ":" ++ decimal n ++ "] " ++ ESC[0m ++ color X ++
message ++ ESC[0m ++ "\n"`, where `message` is the argument texts joined by one space
and `color X` is the fixed sequence of the level. -/
theorem output_line_format (l : Logger) (X : EntryPoint) (env : Env) (message : List Value)
    (h : l.logLevel ≥ X.ordinal) :
    ∃ r, (l.call X env message).messageChan = l.messageChan ++ [r] ∧
      r.GetFormattedMessage =
        "\x1b[1;30m" ++ "[" ++ env.now FormatTimeDisplay ++ " "
          ++ (l.getFileAndLine env.caller).1 ++ ":" ++ toString (l.getFileAndLine env.caller).2
          ++ "] " ++ "\x1b[0m" ++ X.color ++ " ".intercalate (message.map displayString)
          ++ "\x1b[0m" ++ "\n" := by
  rw [call_eq]
  have h2 : ¬ l.logLevel < X.ordinal := by omega
  simp only [h2, if_false]
  refine ⟨_, rfl, ?_⟩
  rw [GetFormattedMessage_eq_specLine, messageString_eq]
  rfl

/-- Claim C2 at a concrete call: `Error("disk", 7)` from `/home/u/main.go:42` on a new
logger. -/
theorem output_line_format_witness :
    ∃ r, ((NewLogger []).call .Error
        ⟨fun _ => "2024-01-02 03:04:05", ⟨0, "/home/u/main.go", 42, true⟩⟩
        [.string "disk", .integer .int 7]).messageChan = [] ++ [r] ∧
      r.GetFormattedMessage =
        "\x1b[1;30m" ++ "[" ++ "2024-01-02 03:04:05" ++ " "
          ++ "main.go" ++ ":" ++ "42"
          ++ "] " ++ "\x1b[0m" ++ "\x1b[2;31m" ++ "disk 7"
          ++ "\x1b[0m" ++ "\n" :=
  output_line_format (NewLogger []) .Error
    ⟨fun _ => "2024-01-02 03:04:05", ⟨0, "/home/u/main.go", 42, true⟩⟩
    [.string "disk", .integer .int 7] (by decide)

/-- Claim C3, amended (message body). The message body that `GetFormattedMessage` places
in the line is the display strings of the arguments joined by exactly one space, in
input order; a string renders as itself, a byte sequence as its text, an integer of one
of the ten types the type switch lists (`int`, `int8`, `int16`, `int32`, `int64`,
`uint`, `uint8`, `uint16`, `uint32`, `uint64`) as its decimal numeral; the empty
argument list gives the empty body. -/
theorem message_body_join (fileName time format : String) (level line : Int)
    (message : List Value) (s b : String) (k : IntKind) (v : Int) :
    (LogMessage.mk fileName level message line time format).GetFormattedMessage
        = specLine time fileName line format (" ".intercalate (message.map displayString))
    ∧ (LogMessage.mk fileName level message line time format).messageString
        = " ".intercalate (message.map displayString)
    ∧ displayString (.string s) = s
    ∧ displayString (.bytes b) = b
    ∧ displayString (.integer k v) = toString v
    ∧ (LogMessage.mk fileName level [] line time format).messageString = "" := by
  refine ⟨?_, messageString_eq _, rfl, displayString_bytes b, displayString_integer k v, ?_⟩
  · rw [GetFormattedMessage_eq_specLine, messageString_eq]
  · rfl

/-- Claim C4, amended (fallback rendering). A non-nil argument whose dynamic type is none
of the types the type switch lists (a user-defined type whose underlying type is `int`
or `string` included) renders as `"(" ++ type name ++ ") " ++ default representation`.
Such an argument, and the nil argument as well, leaves the rendering and the relative
position of the arguments before and after it unchanged. -/
theorem fallback_rendering (fileName time format : String) (level line : Int)
    (before after : List Value) (t : String) (r : Char → String) :
    displayString (.other t r)
        = "(" ++ (Value.other t r).typeName ++ ") " ++ formatVerb 'v' (.other t r)
    ∧ displayString (.other t r) = "(" ++ t ++ ") " ++ r 'v'
    ∧ (LogMessage.mk fileName level (before ++ [.other t r] ++ after) line time
          format).messageString
        = " ".intercalate (before.map displayString ++ ["(" ++ t ++ ") " ++ r 'v']
            ++ after.map displayString)
    ∧ (LogMessage.mk fileName level (before ++ [.nil] ++ after) line time format).messageString
        = " ".intercalate (before.map displayString ++ [displayString .nil]
            ++ after.map displayString) := by
  refine ⟨displayString_other t r, displayString_other t r, ?_, ?_⟩
  · rw [messageString_eq]
    simp [displayString_other]
  · rw [messageString_eq]
    simp

/-- Claim C4 as stated fails at the nil argument: `reflect.TypeOf(nil)` is nil, so `%s`
prints the marker `%!s(<nil>)` where the claim puts a type name, and the argument
renders as `(%!s(<nil>)) <nil>`, which is not `"(" ++ type name ++ ") " ++ default
representation` for the nil value (`(<nil>) <nil>`). -/
theorem nil_rendering_marker :
    displayString .nil = "(%!s(<nil>)) <nil>"
    ∧ displayString .nil ≠ "(" ++ Value.typeName .nil ++ ") " ++ formatVerb 'v' .nil
    ∧ (LogMessage.mk "main.go" 4 [.string "a", .nil, .string "b"] 10 "2024-01-02 03:04:05"
        "").messageString = "a (%!s(<nil>)) <nil> b" := by
  refine ⟨by decide, by decide, by decide⟩

/-- Claim C3 as stated fails at `uintptr(5)`: `uintptr` is a built-in unsigned integer
type that the type switch does not list, so the argument takes the default branch and
renders as `(uintptr) 5`, not as its decimal numeral `5`. -/
theorem uintptr_not_decimal :
    displayString (uintptrValue 5) = "(uintptr) 5"
    ∧ displayString (uintptrValue 5) ≠ "5"
    ∧ (LogMessage.mk "main.go" 4 [.string "addr", uintptrValue 5] 10 "2024-01-02 03:04:05"
        "").messageString = "addr (uintptr) 5" := by
  refine ⟨by decide, by decide, by decide⟩

theorem digitChar_ne_newline (d : Nat) (h : d < 10) : Nat.digitChar d ≠ '\n' := by
  interval_cases d <;> decide

theorem toDigitsCore_no_newline (fuel n : Nat) (acc : List Char) (h : '\n' ∉ acc) :
    '\n' ∉ Nat.toDigitsCore 10 fuel n acc := by
  induction fuel generalizing n acc with
  | zero => simpa [Nat.toDigitsCore] using h
  | succ f ih =>
    have hd : '\n' ∉ Nat.digitChar (n % 10) :: acc := by
      simp only [List.mem_cons, not_or]
      exact ⟨(digitChar_ne_newline _ (Nat.mod_lt _ (by norm_num))).symm, h⟩
    simp only [Nat.toDigitsCore]
    split
    · exact hd
    · exact ih _ _ hd

theorem natRepr_no_newline (n : Nat) : '\n' ∉ (toString n).data := by
  show '\n' ∉ (Nat.repr n).data
  simp only [Nat.repr, Nat.toDigits, List.asString]
  exact toDigitsCore_no_newline _ _ _ (by simp)

theorem intRepr_no_newline (v : Int) : '\n' ∉ (toString v).data := by
  cases v with
  | ofNat m => exact natRepr_no_newline m
  | negSucc m =>
    show '\n' ∉ ("-" ++ toString (Nat.succ m)).data
    simp only [String.data_append, List.mem_append, not_or]
    exact ⟨by decide, natRepr_no_newline _⟩

theorem intercalate_go_no_newline (rest : List String) (acc : String)
    (hacc : '\n' ∉ acc.data) (h : ∀ x ∈ rest, '\n' ∉ x.data) :
    '\n' ∉ (String.intercalate.go acc " " rest).data := by
  induction rest generalizing acc with
  | nil => simpa [String.intercalate.go] using hacc
  | cons x rest ih =>
    simp only [String.intercalate.go]
    apply ih
    · simp only [String.data_append, List.mem_append, not_or]
      exact ⟨⟨hacc, by decide⟩, h x (by simp)⟩
    · intro y hy; exact h y (by simp [hy])

theorem intercalate_no_newline (xs : List String) (h : ∀ x ∈ xs, '\n' ∉ x.data) :
    '\n' ∉ (" ".intercalate xs).data := by
  cases xs with
  | nil => simp [String.intercalate]
  | cons x rest =>
    simp only [String.intercalate]
    exact intercalate_go_no_newline rest x (h x (by simp)) (fun y hy => h y (by simp [hy]))

theorem displayString_no_newline (s : Value) (h : s.newlineFree) :
    '\n' ∉ (displayString s).data := by
  cases s with
  | float32 g => rw [displayString_float32]; exact h
  | float64 g => rw [displayString_float64]; exact h
  | integer k v => rw [displayString_integer]; exact intRepr_no_newline v
  | bytes b => rw [displayString_bytes]; exact h
  | string s => exact h
  | other t r =>
    rw [displayString_other]
    simp only [String.data_append, List.mem_append, not_or]
    exact ⟨⟨⟨by decide, h.1⟩, by decide⟩, h.2⟩
  | nil => rw [displayString_nil]; decide

/-- Claim C5, amended (one newline-terminated line). For every record
`GetFormattedMessage` returns a string that ends with a newline; the part before that
final newline holds no newline whenever the timestamp, the file name, the color sequence
and the argument texts hold none. -/
theorem formatted_line_newline (m : LogMessage) :
    ∃ body, m.GetFormattedMessage = body ++ "\n" ∧
      (('\n' ∉ m.time.data ∧ '\n' ∉ m.fileName.data ∧ '\n' ∉ m.format.data
          ∧ ∀ s ∈ m.message, s.newlineFree) → '\n' ∉ body.data) := by
  refine ⟨"\x1b[1;30m" ++ "[" ++ m.time ++ " " ++ m.fileName ++ ":" ++ toString m.line ++ "] "
    ++ "\x1b[0m" ++ m.format ++ m.messageString ++ "\x1b[0m", ?_, ?_⟩
  · rw [GetFormattedMessage_eq_specLine]; rfl
  · rintro ⟨ht, hf, hc, ha⟩
    have hb : '\n' ∉ m.messageString.data := by
      rw [messageString_eq]
      apply intercalate_no_newline
      intro x hx
      obtain ⟨s, hs, rfl⟩ := List.mem_map.mp hx
      exact displayString_no_newline s (ha s hs)
    have hl := intRepr_no_newline m.line
    simp [String.data_append, ht, hf, hc, hb, hl]

theorem splitIndex_le (p : List Char) (n : Nat) : splitIndex p n ≤ n := by
  induction n with
  | zero => simp [splitIndex]
  | succ i ih =>
    simp only [splitIndex]
    split
    · exact le_rfl
    · omega

theorem getD_eq_getElem (p : List Char) (i : Nat) (hi : i < p.length) :
    p.getD i '/' = p[i] := by
  simp [List.getD, List.getElem?_eq_getElem hi]

theorem splitIndex_file (p : List Char) (n : Nat) (hn : n ≤ p.length) :
    '/' ∉ (p.take n).drop (splitIndex p n) := by
  induction n with
  | zero => simp [splitIndex]
  | succ i ih =>
    have hi : i < p.length := hn
    simp only [splitIndex]
    split
    · rw [List.drop_eq_nil_of_le (List.length_take_le _ _)]
      simp
    · rename_i hsep
      have hle := splitIndex_le p i
      have hlen : (p.take i).length = i := by simp; omega
      rw [getD_eq_getElem p i hi] at hsep
      rw [List.take_succ, List.drop_append_of_le_length (by omega),
        List.getElem?_eq_getElem hi]
      simp only [List.mem_append, not_or, Option.toList, List.mem_singleton]
      refine ⟨ih (by omega), ?_⟩
      intro h
      apply hsep
      rw [← h]
      rfl

theorem splitIndex_dir (p : List Char) (n : Nat) (hn : n ≤ p.length) :
    splitIndex p n = 0 ∨ ∃ d, p.take (splitIndex p n) = d ++ ['/'] := by
  induction n with
  | zero => simp [splitIndex]
  | succ i ih =>
    have hi : i < p.length := hn
    simp only [splitIndex]
    split
    · rename_i hsep
      rw [getD_eq_getElem p i hi] at hsep
      have hc : p[i] = '/' := by simpa [IsPathSeparator] using hsep
      right
      refine ⟨p.take i, ?_⟩
      rw [List.take_succ, List.getElem?_eq_getElem hi, hc]
      rfl
    · exact ih (by omega)

theorem filepathSplit_append (path : String) :
    path = (filepathSplit path).1 ++ (filepathSplit path).2 := by
  apply String.ext
  simp [filepathSplit, String.data_append]

theorem filepathSplit_file (path : String) : '/' ∉ (filepathSplit path).2.data := by
  have h := splitIndex_file path.data path.data.length le_rfl
  rw [List.take_length] at h
  exact h

theorem filepathSplit_dir (path : String) :
    (filepathSplit path).1 = "" ∨ ∃ d : String, (filepathSplit path).1 = d ++ "/" := by
  rcases splitIndex_dir path.data path.data.length le_rfl with h | ⟨d, hd⟩
  · left
    apply String.ext
    show List.take (splitIndex path.data path.data.length) path.data = []
    rw [h]
    rfl
  · right
    refine ⟨String.mk d, ?_⟩
    apply String.ext
    show List.take (splitIndex path.data path.data.length) path.data = d ++ ['/']
    exact hd

/-- Claim C8 (base file name). For every source path, `getFileAndLine` returns a file
name that holds no path separator and is a suffix of the path; the part removed is empty
or ends with a separator, so it is everything up to and including the last separator;
the line number is returned unchanged. -/
theorem getFileAndLine_base_name (l : Logger) (caller : Caller) :
    '/' ∉ (l.getFileAndLine caller).1.data
    ∧ (l.getFileAndLine caller).2 = caller.line
    ∧ ∃ dir : String, caller.file = dir ++ (l.getFileAndLine caller).1
        ∧ (dir = "" ∨ ∃ d : String, dir = d ++ "/") :=
  ⟨filepathSplit_file caller.file, rfl, (filepathSplit caller.file).1,
    filepathSplit_append caller.file, filepathSplit_dir caller.file⟩

theorem foldl_WriteString (q : List LogMessage) (w : List String) :
    q.foldl (fun w n => WriteString w n.GetFormattedMessage) w
      = w ++ q.map LogMessage.GetFormattedMessage := by
  induction q generalizing w with
  | nil => simp
  | cons n q ih =>
    rw [List.foldl_cons, ih]
    simp [WriteString]

theorem startListening_localWriter (l : Logger) :
    l.startListening.localWriter
      = l.localWriter ++ l.messageChan.map LogMessage.GetFormattedMessage := by
  simp [Logger.startListening, foldl_WriteString]

theorem call_logLevel (l : Logger) (X : EntryPoint) (env : Env) (message : List Value) :
    (l.call X env message).logLevel = l.logLevel := by
  rw [call_eq]
  split <;> rfl

theorem call_startListening (l : Logger) (X : EntryPoint) (env : Env) (message : List Value) :
    (l.call X env message).startListening.localWriter
      = l.startListening.localWriter
          ++ expectedLines l.logLevel [.call X env message] := by
  rw [call_eq]
  by_cases h : l.logLevel < X.ordinal
  · have h2 : ¬ X.ordinal ≤ l.logLevel := by omega
    simp [h, h2, expectedLines]
  · have h2 : X.ordinal ≤ l.logLevel := by omega
    simp only [h, h2, if_false, if_true, expectedLines, startListening_localWriter,
      List.map_append, List.map_cons, List.map_nil, List.append_assoc,
      GetFormattedMessage_eq_specLine, messageString_eq]
    rfl

theorem expectedLines_cons (T : Int) (s : Step) (rest : List Step) :
    expectedLines T (s :: rest) = expectedLines T [s] ++ expectedLines T rest := by
  cases s with
  | call X env message =>
    simp only [expectedLines]
    split <;> simp
  | listen => simp [expectedLines]

/-- Claim C7 (single-producer order). For every schedule of logging calls made one
after another, with the consumer receiving at any points in between and once at the
end, the sink holds what it held before followed by exactly the lines of the admitted
calls, one per admitted call, in call order; nothing stays on the queue and the
threshold is unchanged. -/
theorem single_producer_order (l : Logger) (steps : List Step) :
    (l.run steps).startListening.localWriter
        = l.startListening.localWriter ++ expectedLines l.logLevel steps
    ∧ (l.run steps).startListening.messageChan = []
    ∧ (l.run steps).logLevel = l.logLevel := by
  induction steps generalizing l with
  | nil => simp [Logger.run, expectedLines, Logger.startListening]
  | cons s rest ih =>
    cases s with
    | call X env message =>
      obtain ⟨h1, h2, h3⟩ := ih (l.call X env message)
      refine ⟨?_, h2, by rw [Logger.run, h3, call_logLevel]⟩
      rw [Logger.run, h1, call_startListening, call_logLevel, List.append_assoc,
        ← expectedLines_cons]
    | listen =>
      obtain ⟨h1, h2, h3⟩ := ih l.startListening
      refine ⟨?_, h2, by rw [Logger.run, h3]; rfl⟩
      rw [Logger.run, h1]
      simp [expectedLines, Logger.startListening]

/-- Claim C5 as stated fails: the record of `Info("a\nb")` renders with a newline
inside the message body, so the part before the final newline is not newline-free. -/
theorem formatted_line_second_newline :
    (LogMessage.mk "main.go" 4 [.string "a\nb"] 10 "2024-01-02 03:04:05"
        "").GetFormattedMessage
      = "\x1b[1;30m[2024-01-02 03:04:05 main.go:10] \x1b[0ma\nb\x1b[0m\n"
    ∧ ¬ ∃ body : String,
        (LogMessage.mk "main.go" 4 [.string "a\nb"] 10 "2024-01-02 03:04:05"
          "").GetFormattedMessage = body ++ "\n" ∧ '\n' ∉ body.data := by
  have hv : (LogMessage.mk "main.go" 4 [.string "a\nb"] 10 "2024-01-02 03:04:05"
        "").GetFormattedMessage
      = "\x1b[1;30m[2024-01-02 03:04:05 main.go:10] \x1b[0ma\nb" ++ "\x1b[0m\n" := by decide
  refine ⟨by decide, ?_⟩
  rintro ⟨body, hb, hn⟩
  apply hn
  have h := congrArg String.data (hv.symm.trans hb)
  have h2 := congrArg List.dropLast h
  simp only [String.data_append] at h2
  rw [List.dropLast_concat] at h2
  rw [← h2]
  decide

/-- Claim C5, amended, at a concrete record whose texts hold no newline. -/
theorem formatted_line_newline_witness :
    ∃ body : String,
      (LogMessage.mk "main.go" 4 [.string "user", .integer .int 7, .nil] 10
        "2024-01-02 03:04:05" "\x1b[1;36m").GetFormattedMessage = body ++ "\n"
      ∧ '\n' ∉ body.data := by
  obtain ⟨body, h1, h2⟩ := formatted_line_newline
    (LogMessage.mk "main.go" 4 [.string "user", .integer .int 7, .nil] 10
      "2024-01-02 03:04:05" "\x1b[1;36m")
  exact ⟨body, h1, h2 ⟨by decide, by decide, by decide, by simp [Value.newlineFree]⟩⟩

/-- Claim C9, amended (no sentinel). The function `getFileAndLine` substitutes no
sentinel: whatever success flag `runtime.Caller` reports, it returns the final path
segment of the reported path and the reported line, exactly as it does when the flag is
true. -/
theorem getFileAndLine_ignores_success (l : Logger) (pc : Nat) (file : String) (line : Int)
    (ok : Bool) :
    l.getFileAndLine ⟨pc, file, line, ok⟩ = l.getFileAndLine ⟨pc, file, line, true⟩
    ∧ l.getFileAndLine ⟨pc, file, line, ok⟩ = ((filepathSplit file).2, line) := by
  cases ok <;> exact ⟨rfl, rfl⟩

/-- Claim C9 as stated fails: on the results `runtime.Caller` reports with no success
(empty path, line 0, flag false), `getFileAndLine` returns the empty file name and line
0, not the sentinel `unknown`. -/
theorem getFileAndLine_failed_caller :
    (NewLogger []).getFileAndLine ⟨0, "", 0, false⟩ = ("", 0)
    ∧ (NewLogger []).getFileAndLine ⟨0, "", 0, false⟩ ≠ ("unknown", 0) := by
  refine ⟨by decide, by decide⟩

/-- Claim C10 at the failing input: the record built by an admitted `Error` call has
level 1 (`LoglevelFatal`), while the ordinal of Error is 2. -/
theorem Error_record_level :
    ((NewLogger []).call .Error
        ⟨fun _ => "2024-01-02 03:04:05", ⟨0, "/home/u/main.go", 42, true⟩⟩
        [.string "disk"]).messageChan.map LogMessage.level = [1]
    ∧ EntryPoint.ordinal .Error = 2
    ∧ LoglevelError = 2 := by
  refine ⟨by decide, by decide, by decide⟩

end logger
